import Mathlib

/-!
Shallow embedding of the PiMusic-Bot guild playback orchestrator
(`src/src/bot.py`, `src/src/web.py`, `src/src/utils.py`) and proofs about it.

Conventions of the embedding:
* Python track dicts become the `Track` structure.  The display-only
  `duration` string (a pure function of `duration_seconds` via `format_time`)
  is omitted; `t.get('suggested')` with its falsy default becomes the
  non-optional boolean field `suggested`.
* `ServerState` mirrors the per-guild `ServerState` class of `bot.py`
  (fields that participate in the orchestrator logic; `last_interaction`,
  `last_text_channel` and `game` carry no queue logic and are omitted).
* `async` methods are embedded as pure state-transformers executed
  atomically; external effects (the yt-dlp recommendation feed, the random
  choice, the shuffling permutation, voice-client status, resolution
  success) enter as explicit parameters.
* Machine-level concerns do not arise: Python integers are unbounded, so
  sizes and byte counts are `Nat`/`Int` with exact arithmetic.
-/

/-- A queue entry, as built by `proc` in `prepare_song` / `ensure_autoplay`
in `src/src/bot.py`.  `suggested` is `true` exactly for autoplay-chosen
entries (`t.get('suggested')` truthy in the source). -/
structure Track where
  id : String
  title : String
  author : String
  duration_seconds : Nat
  webpage : String
  suggested : Bool
deriving DecidableEq, Repr

/-- One raw result entry of the recommendation feed
(`info['entries']` from `yt_dlp.extract_info` in `ensure_autoplay`). -/
structure Entry where
  id : String
  title : String
  author : String
  duration_seconds : Nat
  url : String
deriving DecidableEq, Repr

/-- Per-guild mutable state: class `ServerState` in `src/src/bot.py`
(lines 64-76).  Fields with no orchestrator logic
(`last_interaction`, `last_text_channel`, `game`) are omitted. -/
structure ServerState where
  queue : List Track
  current_track : Option Track
  processing_next : Bool
  history : List Track
  autoplay : Bool
  fetching_autoplay : Bool
  stopping : Bool
deriving DecidableEq, Repr

/-- `ServerState.__init__`: the state created on first touch by `get_state`. -/
def initialState : ServerState :=
  { queue := [], current_track := none, processing_next := false,
    history := [], autoplay := false, fetching_autoplay := false,
    stopping := false }

/-- `[t for t in state.queue if not t.get('suggested')]` — drop suggestions. -/
def stripSuggested (q : List Track) : List Track :=
  q.filter (fun t => !t.suggested)

/-- `[t for t in state.queue if t.get('suggested')]`. -/
def onlySuggested (q : List Track) : List Track :=
  q.filter (fun t => t.suggested)

/-- `state.queue[-1].get('suggested')`, `false` on the empty queue. -/
def lastIsSuggested (q : List Track) : Bool :=
  (q.getLast?.map (fun t => t.suggested)).getD false

/-- `clear` command in `src/src/bot.py` (lines 1079-1087) and the
`clear` action of `api_control` in `src/src/web.py` (identical code):
if autoplay is on keep only suggested entries, else empty the queue. -/
def clearQueue (s : ServerState) : ServerState :=
  if s.autoplay then { s with queue := onlySuggested s.queue }
  else { s with queue := [] }

/-- `shuffle` command in `src/src/bot.py` (lines 1109-1116) and the
`shuffle` action of `api_control` in `src/src/web.py`: partition into
user tracks and suggested tracks, shuffle the user part, re-append the
suggested part.  The outcome of `random.shuffle(user_queue)` is passed
in as `perm`; theorems constrain it to be a permutation of the
non-suggested tracks. -/
def shuffleWith (s : ServerState) (perm : List Track) : ServerState :=
  { s with queue := perm ++ onlySuggested s.queue }

/-- `api_remove` result: HTTP 400 `'Cannot remove autoplay suggestion'`
versus `{'status': 'ok'}`. -/
inductive RemoveResult where
  | ok
  | invalidOperation
deriving DecidableEq, Repr

/-- `api_remove` in `src/src/web.py` (lines 427-439): in-range index whose
target is a suggested track while autoplay is on is rejected; other
in-range indices are deleted; out-of-range indices fall through to ok. -/
def api_remove (s : ServerState) (index : Nat) : ServerState × RemoveResult :=
  if h : index < s.queue.length then
    if (s.queue.get ⟨index, h⟩).suggested && s.autoplay then
      (s, RemoveResult.invalidOperation)
    else
      ({ s with queue := s.queue.eraseIdx index }, RemoveResult.ok)
  else (s, RemoveResult.ok)

/-- Outcome of the recommendation-feed query in `ensure_autoplay`
(`yt_dlp.YoutubeDL(YDL_MIX_OPTS).extract_info(...)`): the call can raise
(caught by the `except` clause), return an info dict without an
`'entries'` key, or return a list of entries in which individual items
may be `None` (skipped by `if not e: continue`). -/
inductive FetchOutcome where
  | raises
  | noEntries
  | ok (entries : List (Option Entry))
deriving DecidableEq, Repr

/-- `recent_ids = [h['id'] for h in state.history[-20:]]`. -/
def recentIds (history : List Track) : List String :=
  (history.drop (history.length - 20)).map (fun t => t.id)

/-- The exclusion filter of the candidate loop in `ensure_autoplay`
(lines 843-850 of `src/src/bot.py`): skip the seed itself, ids in
`avoid_ids`, recent history ids, and ids already present in the queue. -/
def candidateOk (seedId : String) (avoid recent : List String)
    (q : List Track) (e : Entry) : Bool :=
  !(e.id == seedId) && !(avoid.contains e.id) && !(recent.contains e.id)
    && !(q.any (fun t => t.id == e.id))

/-- The candidate-collection loop of `ensure_autoplay`: walk the feed
entries, skip `None` entries and excluded ids, append survivors to the
accumulator and break as soon as 5 have been gathered. -/
def collectCandidates (seedId : String) (avoid recent : List String)
    (q : List Track) : List (Option Entry) → List Entry → List Entry
  | [], acc => acc
  | none :: rest, acc => collectCandidates seedId avoid recent q rest acc
  | some e :: rest, acc =>
      if candidateOk seedId avoid recent q e then
        if 5 ≤ (acc ++ [e]).length then acc ++ [e]
        else collectCandidates seedId avoid recent q rest (acc ++ [e])
      else collectCandidates seedId avoid recent q rest acc

/-- Seed determination in `ensure_autoplay` (lines 819-827): last
non-suggested track of the (possibly just stripped) queue, else the
current track, else the most recent history entry. -/
def seedOf (q : List Track) (current : Option Track)
    (history : List Track) : Option Track :=
  match q.reverse.find? (fun t => !t.suggested) with
  | some t => some t
  | none =>
    match current with
    | some c => some c
    | none => history.getLast?

/-- The suggestion dict built from the chosen entry (line 855):
all metadata copied, `'suggested': True`. -/
def entryToSuggested (e : Entry) : Track :=
  { id := e.id, title := e.title, author := e.author,
    duration_seconds := e.duration_seconds, webpage := e.url,
    suggested := true }

/-- Steps 3-4 of `ensure_autoplay` (lines 819-866 of `src/src/bot.py`),
after the queue has been brought to its stripped form `q`: find the
seed, query the feed, filter candidates, pick one and append it with
`suggested=True`; `state.fetching_autoplay` is set on entering the
fetch and cleared in the `finally` block, so every exit of this phase
(exception included) leaves it `false`.  The second component of the
result records whether the fetch phase ran (control passed
`state.fetching_autoplay = True`), making "a fetch was started"
observable to theorems. -/
def ensureFetch (s : ServerState) (avoid_ids : List String)
    (fetch : FetchOutcome) (pick : Nat) (q : List Track) :
    ServerState × Bool :=
  -- 3. Find a seed track
  match seedOf q s.current_track s.history with
  | none => ({ s with queue := q }, false)
  | some seed =>
    -- 4. Fetch recommendation; `finally: state.fetching_autoplay = False`
    match fetch with
    | FetchOutcome.raises =>
        ({ s with queue := q, fetching_autoplay := false }, true)
    | FetchOutcome.noEntries =>
        ({ s with queue := q, fetching_autoplay := false }, true)
    | FetchOutcome.ok entries =>
      -- candidates = collectCandidates ... entries []
      match collectCandidates seed.id avoid_ids (recentIds s.history) q
          entries [] with
      | [] => ({ s with queue := q, fetching_autoplay := false }, true)
      | c :: cs =>
        -- chosen = random.choice(candidates); double check no
        -- suggestions were added, then append
        ({ s with
            queue := stripSuggested q
                ++ [entryToSuggested
                      ((c :: cs).getD (pick % (c :: cs).length) c)],
            fetching_autoplay := false }, true)

/-- `MusicBot.ensure_autoplay` in `src/src/bot.py` (lines 795-866),
executed atomically.  Parameters supply the environment: `fetch` is the
outcome of the recommendation query, `pick` drives `random.choice`
(the chosen candidate is `candidates[pick % len(candidates)]`; `pick`
ranges over all naturals, so every candidate is a possible choice). -/
def ensure_autoplay (s : ServerState) (avoid_ids : List String)
    (force : Bool) (fetch : FetchOutcome) (pick : Nat) :
    ServerState × Bool :=
  -- 1. If Autoplay is OFF, remove any suggested tracks
  if !s.autoplay then ({ s with queue := stripSuggested s.queue }, false)
  -- Prevent concurrent fetches (unless forced)
  else if s.fetching_autoplay && !force then (s, false)
  else
    -- 2. Maintain exactly one suggestion at the end: with suggestions
    -- (= onlySuggested state.queue) present and neither forced,
    -- displaced nor duplicated, return; otherwise the queue is
    -- stripped exactly when suggestions exist
    if !(onlySuggested s.queue).isEmpty
        && !(force || !(lastIsSuggested s.queue)
              || decide (1 < (onlySuggested s.queue).length)) then
      (s, false)   -- already exactly one at the end and not forced
    else
      ensureFetch s avoid_ids fetch pick
        (if (onlySuggested s.queue).isEmpty then s.queue
         else stripSuggested s.queue)

/-- The state reached by `ensure_autoplay` (discarding the
fetch-ran indicator). -/
def ensureS (s : ServerState) (avoid_ids : List String) (force : Bool)
    (fetch : FetchOutcome) (pick : Nat) : ServerState :=
  (ensure_autoplay s avoid_ids force fetch pick).1

/-- `MusicBot.regenerate_autoplay` (lines 868-882): pop a trailing
suggestion if present and re-derive, avoiding the popped id. -/
def regenerateS (s : ServerState) (fetch : FetchOutcome) (pick : Nat) :
    ServerState :=
  if !s.autoplay then s
  else if lastIsSuggested s.queue then
    match s.queue.getLast? with
    | some old =>
        ensureS { s with queue := s.queue.dropLast } [old.id] true fetch pick
    | none => s    -- unreachable: `lastIsSuggested [] = false`
  else ensureS s [] true fetch pick

/-- The queue/flag effect of `MusicBot.prepare_song` (lines 884-943):
reset `stopping`, strip any suggestion (the source strips both before
and after its awaits; executed atomically the two strips coalesce), and
append the freshly resolved tracks.  `proc` in the source builds each
appended dict without a `'suggested'` key, i.e. `suggested = false`
(`procEntry` below).  The follow-up forced `ensure_autoplay` task and
the possible `play_next` call are separate transitions. -/
def procEntry (e : Entry) : Track :=
  { id := e.id, title := e.title, author := e.author,
    duration_seconds := e.duration_seconds, webpage := e.url,
    suggested := false }

/-- See `procEntry`; queue effect of `prepare_song`. -/
def prepare_song (s : ServerState) (newTracks : List Entry) : ServerState :=
  { s with stopping := false,
           queue := stripSuggested s.queue ++ newTracks.map procEntry }

/-- The `autoplay` hybrid command (lines 1254-1264) and the `autoplay`
action of `api_control`: toggle the flag, then run a non-forced
`ensure_autoplay` pass. -/
def toggleAutoplayS (s : ServerState) (fetch : FetchOutcome) (pick : Nat) :
    ServerState :=
  ensureS { s with autoplay := !s.autoplay } [] false fetch pick

/-- Observable effect of one `play_next` step. -/
inductive PlayEffect where
  | ignored                   -- returned at a guard, nothing done
  | emptied                   -- queue empty: cleared current track, stayed idle
  | started (t : Track)       -- handed `t` to the voice client
  | failedRetry (t : Track)   -- resolution failed: guard cleared, retry scheduled
deriving DecidableEq, Repr

/-- `state.history.append(next_song); if len > 20: pop(0)`. -/
def trimHistory (h : List Track) : List Track :=
  if 20 < h.length then h.tail else h

/-- `MusicBot.play_next` in `src/src/bot.py` (lines 945-1021), one step,
executed atomically.  `vcConnected` stands for
`ctx.guild.voice_client and ctx.guild.voice_client.is_connected()`;
`resolveOk` for whether source resolution / transcoding succeeded (on
failure the source clears the guard and schedules a retry of the same
advance, reported here as the `failedRetry` effect rather than by
recursing). -/
def play_next (s : ServerState) (vcConnected : Bool) (resolveOk : Bool) :
    ServerState × PlayEffect :=
  if s.stopping || !vcConnected then (s, PlayEffect.ignored)
  else if s.processing_next then (s, PlayEffect.ignored)
  else
    match s.queue with
    | [] =>
        ({ s with current_track := none, processing_next := false },
         PlayEffect.emptied)
    | t :: rest =>
        let s1 : ServerState :=
          { s with queue := rest, current_track := some t,
                   history := trimHistory (s.history ++ [t]),
                   processing_next := true }
        if resolveOk then
          ({ s1 with processing_next := false }, PlayEffect.started t)
        else
          ({ s1 with processing_next := false }, PlayEffect.failedRetry t)

/-- Projection of the bot world onto one guild: whether
`guild_id in self.states` (`present`), the stored `ServerState`, whether
the guild's voice client exists and is connected, and — as
instrumentation making "the transport was disconnected" countable — the
number of `voice_client.disconnect()` calls issued so far. -/
structure GuildWorld where
  present : Bool
  st : ServerState
  vcConnected : Bool
  disconnects : Nat
deriving DecidableEq, Repr

/-- `MusicBot.stop_logic` in `src/src/bot.py` (lines 714-726): return
immediately if the guild has no registry entry; otherwise set
`stopping`, disconnect the voice client if there is one, and delete the
registry entry. -/
def stop_logic (w : GuildWorld) : GuildWorld :=
  if !w.present then w
  else
    { present := false,
      st := { w.st with stopping := true },
      vcConnected := false,
      disconnects := w.disconnects + (if w.vcConnected then 1 else 0) }

/-- `play_next` as seen from the registry: `get_state` creates a fresh
`ServerState` when the entry is absent (lines 680-683), then the driver
runs on it. -/
def play_next_world (w : GuildWorld) (resolveOk : Bool) :
    GuildWorld × PlayEffect :=
  let st0 := if w.present then w.st else initialState
  let r := play_next st0 w.vcConnected resolveOk
  ({ w with present := true, st := r.1 }, r.2)

/-- An on-disk cache entry for the model of
`_enforce_cache_limit_sync` (`src/src/utils.py`, lines 55-94): the file
named `id ++ "." ++ ext`, its size in bytes and its modification time.
Cache file names on disk are `<video id>.<ext>`, so
`entry.name.endswith('.webm')` becomes `ext = "webm"`,
`entry.path.replace('.webm', '.jpg')` becomes the file with the same
`id` and `ext = "jpg"`, and `entry.name.replace('.webm', '')` is `id`. -/
structure CacheFile where
  id : String
  ext : String
  size : Nat
  mtime : Nat
deriving DecidableEq, Repr

/-- Sum of file sizes, as the arbitrary-precision Python integer
`total_size`. -/
def totalSize (l : List CacheFile) : Int :=
  (l.map (fun f => (f.size : Int))).sum

/-- `MAX_CACHE_SIZE_GB * 1024 * 1024 * 1024` with
`MAX_CACHE_SIZE_GB = int(os.getenv(..., 16))` passed in as `g`. -/
def maxBytes (g : Nat) : Int := (g : Int) * 1024 * 1024 * 1024

/-- The 100 MB safety margin: `100 * 1024 * 1024`. -/
def marginBytes : Int := 100 * 1024 * 1024

/-- The deletion loop of `_enforce_cache_limit_sync`: walk the
mtime-sorted `.webm` files, delete each (recording its id) and subtract
its size from the running total, breaking as soon as the running total
is at most `bound = max_bytes - 100MB`.  Returns the final running
total and the ids deleted.  The model has no I/O failures, so the
`except OSError` arm never runs. -/
def sweepLoop (bound : Int) : List CacheFile → Int → List String →
    Int × List String
  | [], total, deleted => (total, deleted)
  | f :: rest, total, deleted =>
      let total' := total - (f.size : Int)
      if total' ≤ bound then (total', deleted ++ [f.id])
      else sweepLoop bound rest total' (deleted ++ [f.id])

/-- `files.sort(key=lambda x: x.stat().st_mtime)` on the `.webm` files:
Python's stable ascending sort, modelled by stable insertion sort. -/
def sortedWebm (dir : List CacheFile) : List CacheFile :=
  List.insertionSort (fun a b => a.mtime ≤ b.mtime)
    (dir.filter (fun f => f.ext == "webm"))

/-- `_enforce_cache_limit_sync` (`src/src/utils.py`, lines 55-94) over a
directory listing and the `cache_map` id index: sum the sizes of all
files, collect the `.webm` files; if the total exceeds the ceiling,
delete `.webm` files (plus the sibling `.jpg` thumbnail) oldest-first
until the running total is at most `ceiling − 100MB`, and drop the
deleted ids from the index. -/
def enforceCacheLimit (g : Nat) (dir : List CacheFile)
    (cmap : List String) : List CacheFile × List String :=
  let max_bytes := maxBytes g
  let total := totalSize dir
  let files := dir.filter (fun f => f.ext == "webm")
  if max_bytes < total then
    let sorted := List.insertionSort (fun a b => a.mtime ≤ b.mtime) files
    let r := sweepLoop (max_bytes - marginBytes) sorted total []
    (dir.filter (fun f =>
        !(r.2.contains f.id && (f.ext == "webm" || f.ext == "jpg"))),
     cmap.filter (fun i => !(r.2.contains i)))
  else (dir, cmap)

/-- The inductive queue invariant, in executable form: every entry
except possibly the last is non-suggested (this packages I1 "at most
one suggestion" and I2 "the suggestion, if any, is last"), and when
autoplay is off there is no suggested entry at all (I3). -/
def invQ (autoplay : Bool) (q : List Track) : Bool :=
  q.dropLast.all (fun t => !t.suggested)
    && (autoplay || q.all (fun t => !t.suggested))

/-- State invariant: `invQ` on the queue and autoplay flag. -/
def invS (s : ServerState) : Prop :=
  invQ s.autoplay s.queue = true

/-- The invariant exactly as the specification states it:
at most one suggested track; if one exists it is the last queue
element; suggested tracks occur only while autoplay is on. -/
def claimInvariant (s : ServerState) : Prop :=
  (onlySuggested s.queue).length ≤ 1
    ∧ (∀ t ∈ s.queue, t.suggested = true → s.queue.getLast? = some t)
    ∧ ((∃ t ∈ s.queue, t.suggested = true) → s.autoplay = true)

/-- One observable transition of the per-guild state: the operations the
orchestrator performs on the queue (each executed atomically, with its
environment supplied by the constructor's parameters).  `shuffleQ`
carries the proof that `random.shuffle` produces a permutation of the
user tracks. -/
inductive Step : ServerState → ServerState → Prop where
  | ensure (s : ServerState) (avoid : List String) (force : Bool)
      (fetch : FetchOutcome) (pick : Nat) :
      Step s (ensureS s avoid force fetch pick)
  | prepare (s : ServerState) (tracks : List Entry) :
      Step s (prepare_song s tracks)
  | shuffleQ (s : ServerState) (perm : List Track)
      (h : perm.Perm (stripSuggested s.queue)) :
      Step s (shuffleWith s perm)
  | clearQ (s : ServerState) : Step s (clearQueue s)
  | regen (s : ServerState) (fetch : FetchOutcome) (pick : Nat) :
      Step s (regenerateS s fetch pick)
  | advance (s : ServerState) (vc ok : Bool) :
      Step s (play_next s vc ok).1
  | toggle (s : ServerState) (fetch : FetchOutcome) (pick : Nat) :
      Step s (toggleAutoplayS s fetch pick)
  | removeAt (s : ServerState) (i : Nat) :
      Step s (api_remove s i).1

/-- A state is reachable when some sequence of orchestrator operations
produces it from the freshly created `ServerState`. -/
def Reachable (s : ServerState) : Prop :=
  Relation.ReflTransGen Step initialState s

-- sanity checks of the embedding on concrete inputs
example :
    (ensure_autoplay
      { initialState with autoplay := true,
                          current_track := some
                            ⟨"seed", "t", "a", 10, "w", false⟩ }
      [] false (FetchOutcome.ok [some ⟨"x", "tx", "ax", 9, "ux"⟩]) 0).1.queue
    = [⟨"x", "tx", "ax", 9, "ux", true⟩] := by decide

example :
    (ensure_autoplay { initialState with fetching_autoplay := true }
      [] false FetchOutcome.raises 0)
    = ({ initialState with fetching_autoplay := true,
                           queue := [] }, false) := by decide

lemma strip_all (q : List Track) :
    (stripSuggested q).all (fun t => !t.suggested) = true := by
  rw [List.all_eq_true]
  intro t ht
  have ht' : t ∈ q.filter (fun t => !t.suggested) := ht
  exact (List.mem_filter.mp ht').2

lemma strip_idem (q : List Track) :
    stripSuggested (stripSuggested q) = stripSuggested q := by
  simp [stripSuggested, List.filter_filter]

lemma all_dropLast {p : Track → Bool} {q : List Track}
    (h : q.all p = true) : q.dropLast.all p = true := by
  rw [List.all_eq_true] at *
  exact fun t ht => h t (List.dropLast_subset q ht)

lemma invQ_of_all {a : Bool} {q : List Track}
    (h : q.all (fun t => !t.suggested) = true) : invQ a q = true := by
  simp only [invQ, Bool.and_eq_true, Bool.or_eq_true]
  exact ⟨all_dropLast h, Or.inr h⟩

lemma invQ_strip (a : Bool) (q : List Track) :
    invQ a (stripSuggested q) = true :=
  invQ_of_all (strip_all q)

lemma invQ_append_sugg {q : List Track}
    (h : q.all (fun t => !t.suggested) = true) (t : Track) :
    invQ true (q ++ [t]) = true := by
  simp [invQ, List.dropLast_concat, h]

lemma invQ_tail {a : Bool} {x : Track} {xs : List Track}
    (h : invQ a (x :: xs) = true) : invQ a xs = true := by
  simp only [invQ, Bool.and_eq_true, Bool.or_eq_true] at h ⊢
  obtain ⟨h1, h2⟩ := h
  have hsub : xs.dropLast ⊆ (x :: xs).dropLast := by
    intro t ht
    rcases xs with _ | ⟨y, ys⟩
    · simp at ht
    · exact List.mem_cons_of_mem _ ht
  constructor
  · rw [List.all_eq_true] at h1 ⊢
    exact fun t ht => h1 t (hsub ht)
  · rcases h2 with h2 | h2
    · exact Or.inl h2
    · refine Or.inr ?_
      rw [List.all_eq_true] at h2 ⊢
      exact fun t ht => h2 t (List.mem_cons_of_mem _ ht)

lemma invQ_dropLast {a : Bool} {q : List Track}
    (h : invQ a q = true) : invQ a q.dropLast = true := by
  simp only [invQ, Bool.and_eq_true, Bool.or_eq_true] at h ⊢
  obtain ⟨h1, h2⟩ := h
  constructor
  · rw [List.all_eq_true] at h1 ⊢
    exact fun t ht => h1 t (List.dropLast_subset _ ht)
  · rcases h2 with h2 | h2
    · exact Or.inl h2
    · refine Or.inr ?_
      rw [List.all_eq_true] at h2 ⊢
      exact fun t ht => h2 t (List.dropLast_subset _ ht)

lemma onlySuggested_cases {a : Bool} {q : List Track}
    (h : invQ a q = true) :
    onlySuggested q = []
      ∨ ∃ t, t.suggested = true ∧ onlySuggested q = [t]
          ∧ q.getLast? = some t := by
  rcases List.eq_nil_or_concat q with rfl | ⟨l, t, rfl⟩
  · exact Or.inl rfl
  · have h1 : l.all (fun t => !t.suggested) = true := by
      have h' := h
      simp only [invQ, Bool.and_eq_true] at h'
      simpa [List.concat_eq_append, List.dropLast_concat] using h'.1
    have hl : List.filter (fun t => t.suggested) l = [] := by
      rw [List.filter_eq_nil_iff]
      rw [List.all_eq_true] at h1
      intro u hu
      simpa using h1 u hu
    by_cases hs : t.suggested
    · refine Or.inr ⟨t, hs, ?_, ?_⟩
      · simp only [onlySuggested, List.concat_eq_append, List.filter_append,
          hl]
        simp [hs]
      · simp [List.concat_eq_append]
    · left
      simp only [onlySuggested, List.concat_eq_append, List.filter_append,
        hl]
      simp [hs]

lemma ensureFetch_autoplay (s : ServerState) (av : List String)
    (fe : FetchOutcome) (p : Nat) (q : List Track) :
    ((ensureFetch s av fe p q).1).autoplay = s.autoplay := by
  unfold ensureFetch
  cases hseed : seedOf q s.current_track s.history with
  | none => rfl
  | some seed =>
    cases fe with
    | raises => rfl
    | noEntries => rfl
    | ok entries =>
      dsimp only
      cases hc : collectCandidates seed.id av (recentIds s.history) q
          entries [] with
      | nil => rfl
      | cons c cs => rfl

lemma ensureFetch_flag {s : ServerState} (av : List String)
    (fe : FetchOutcome) (p : Nat) (q : List Track)
    (h : s.fetching_autoplay = false) :
    ((ensureFetch s av fe p q).1).fetching_autoplay = false := by
  unfold ensureFetch
  cases hseed : seedOf q s.current_track s.history with
  | none => exact h
  | some seed =>
    cases fe with
    | raises => rfl
    | noEntries => rfl
    | ok entries =>
      dsimp only
      cases hc : collectCandidates seed.id av (recentIds s.history) q
          entries [] with
      | nil => rfl
      | cons c cs => rfl

lemma ensureFetch_inv {s : ServerState} {q : List Track}
    (ha : s.autoplay = true) (hq : invQ true q = true)
    (av : List String) (fe : FetchOutcome) (p : Nat) :
    invS (ensureFetch s av fe p q).1 := by
  unfold invS ensureFetch
  cases hseed : seedOf q s.current_track s.history with
  | none => simpa [ha] using hq
  | some seed =>
    cases fe with
    | raises => simpa [ha] using hq
    | noEntries => simpa [ha] using hq
    | ok entries =>
      dsimp only
      cases hc : collectCandidates seed.id av (recentIds s.history) q
          entries [] with
      | nil => simpa [ha] using hq
      | cons c cs =>
        simpa [ha] using invQ_append_sugg (strip_all q) _

lemma ensure_off {s : ServerState} (h : s.autoplay = false)
    (av : List String) (f : Bool) (fe : FetchOutcome) (p : Nat) :
    ensure_autoplay s av f fe p
      = ({ s with queue := stripSuggested s.queue }, false) := by
  unfold ensure_autoplay
  simp [h]

lemma inv_ensure {s : ServerState} (h : invS s) (av : List String)
    (f : Bool) (fe : FetchOutcome) (p : Nat) :
    invS (ensureS s av f fe p) := by
  unfold ensureS ensure_autoplay
  by_cases ha : s.autoplay = true
  · rw [ha]
    simp only [Bool.not_true, Bool.false_eq_true, if_false]
    by_cases hfa : (s.fetching_autoplay && !f) = true
    · rw [if_pos hfa]
      exact h
    · rw [if_neg hfa]
      by_cases hcond : (!(onlySuggested s.queue).isEmpty
          && !(f || !(lastIsSuggested s.queue)
                || decide (1 < (onlySuggested s.queue).length))) = true
      · rw [if_pos hcond]
        exact h
      · rw [if_neg hcond]
        by_cases he : (onlySuggested s.queue).isEmpty = true
        · rw [if_pos he]
          exact ensureFetch_inv ha (by unfold invS at h; rwa [ha] at h) av fe p
        · rw [if_neg he]
          exact ensureFetch_inv ha (invQ_strip true s.queue) av fe p
  · have ha' : s.autoplay = false := by simpa using ha
    simp only [ha', Bool.not_false, if_true]
    exact invQ_strip _ _

lemma all_not_sugg_of_off {s : ServerState} (h : invS s)
    (ha : s.autoplay = false) :
    s.queue.all (fun t => !t.suggested) = true := by
  have h' := h
  simp only [invS, invQ, Bool.and_eq_true, Bool.or_eq_true, ha,
    Bool.false_eq_true, false_or] at h'
  exact h'.2

lemma inv_prepare (s : ServerState) (ts : List Entry) :
    invS (prepare_song s ts) := by
  unfold invS prepare_song
  apply invQ_of_all
  rw [List.all_eq_true]
  intro t ht
  rcases List.mem_append.mp ht with h1 | h2
  · exact (List.mem_filter.mp
      (show t ∈ s.queue.filter (fun t => !t.suggested) from h1)).2
  · rcases List.mem_map.mp h2 with ⟨e, _, rfl⟩
    rfl

lemma inv_clear {s : ServerState} (h : invS s) : invS (clearQueue s) := by
  unfold invS clearQueue
  by_cases ha : s.autoplay = true
  · rw [if_pos ha]
    rcases onlySuggested_cases (show invQ s.autoplay s.queue = true from h)
      with h0 | ⟨t, hs, h1, _⟩
    · rw [h0]
      simp [invQ]
    · rw [h1]
      simp [invQ, ha]
  · rw [if_neg ha]
    simp [invQ]

lemma inv_shuffle {s : ServerState} {perm : List Track} (h : invS s)
    (hp : perm.Perm (stripSuggested s.queue)) :
    invS (shuffleWith s perm) := by
  have hall : perm.all (fun t => !t.suggested) = true := by
    rw [List.all_eq_true]
    intro t ht
    exact (List.mem_filter.mp
      (show t ∈ s.queue.filter (fun t => !t.suggested) from
        hp.mem_iff.mp ht)).2
  unfold invS shuffleWith
  rcases onlySuggested_cases (show invQ s.autoplay s.queue = true from h)
    with h0 | ⟨t, hs, h1, _⟩
  · rw [h0, List.append_nil]
    exact invQ_of_all hall
  · have ha : s.autoplay = true := by
      by_contra hfalse
      have ha' : s.autoplay = false := by simpa using hfalse
      have hall2 := all_not_sugg_of_off h ha'
      have ht : t ∈ s.queue := by
        have hmem : t ∈ s.queue.filter (fun u => u.suggested) := by
          rw [show s.queue.filter (fun u => u.suggested)
              = onlySuggested s.queue from rfl, h1]
          exact List.mem_singleton.mpr rfl
        exact (List.mem_filter.mp hmem).1
      rw [List.all_eq_true] at hall2
      have := hall2 t ht
      rw [hs] at this
      simp at this
    rw [h1, ha]
    exact invQ_append_sugg hall t

lemma inv_play {s : ServerState} (h : invS s) (vc ok : Bool) :
    invS (play_next s vc ok).1 := by
  unfold invS play_next
  by_cases hg : (s.stopping || !vc) = true
  · rw [if_pos hg]
    exact h
  · rw [if_neg hg]
    by_cases hp : s.processing_next = true
    · rw [if_pos hp]
      exact h
    · rw [if_neg hp]
      cases hq : s.queue with
      | nil =>
        simp [invQ]
      | cons t rest =>
        dsimp only
        have h' : invQ s.autoplay (t :: rest) = true := by
          have h'' : invQ s.autoplay s.queue = true := h
          rwa [hq] at h''
        by_cases hok : ok = true
        · rw [if_pos hok]
          exact invQ_tail h'
        · rw [if_neg hok]
          exact invQ_tail h'

lemma inv_regen {s : ServerState} (h : invS s) (fe : FetchOutcome)
    (p : Nat) : invS (regenerateS s fe p) := by
  unfold regenerateS
  by_cases ha : (!s.autoplay) = true
  · rw [if_pos ha]
    exact h
  · rw [if_neg ha]
    by_cases hl : lastIsSuggested s.queue = true
    · rw [if_pos hl]
      cases hlast : s.queue.getLast? with
      | none => exact h
      | some old =>
        exact inv_ensure
          (show invS { s with queue := s.queue.dropLast } from
            invQ_dropLast (show invQ s.autoplay s.queue = true from h))
          [old.id] true fe p
    · rw [if_neg hl]
      exact inv_ensure h [] true fe p

lemma inv_toggle {s : ServerState} (h : invS s) (fe : FetchOutcome)
    (p : Nat) : invS (toggleAutoplayS s fe p) := by
  unfold toggleAutoplayS
  by_cases ha : s.autoplay = true
  · have hoff : ({ s with autoplay := !s.autoplay } : ServerState).autoplay
        = false := by simp [ha]
    have heq := ensure_off hoff [] false fe p
    unfold ensureS
    rw [heq]
    exact invQ_strip _ _
  · have ha' : s.autoplay = false := by simpa using ha
    have hall := all_not_sugg_of_off h ha'
    exact inv_ensure
      (show invS { s with autoplay := !s.autoplay } from invQ_of_all hall)
      [] false fe p

lemma all_dropLast_tail {p : Track → Bool} {x : Track} {xs : List Track}
    (h : (x :: xs).dropLast.all p = true) : xs.dropLast.all p = true := by
  rcases xs with _ | ⟨y, ys⟩
  · simp
  · rw [List.all_eq_true] at h ⊢
    intro t ht
    exact h t (List.mem_cons_of_mem _ ht)

lemma dropLast_all_eraseIdx {p : Track → Bool} :
    ∀ (i : Nat) (q : List Track),
      q.dropLast.all p = true →
      (∀ h : i < q.length, p (q.get ⟨i, h⟩) = true) →
      (q.eraseIdx i).dropLast.all p = true := by
  intro i q
  induction q generalizing i with
  | nil => intro _ _; simp
  | cons x xs ih =>
    intro hall hget
    cases i with
    | zero =>
      exact all_dropLast_tail hall
    | succ n =>
      rcases hxe : xs.eraseIdx n with _ | ⟨z, zs⟩
      · show (x :: xs.eraseIdx n).dropLast.all p = true
        rw [hxe]
        simp
      · have hxs : xs ≠ [] := by
          intro hnil
          rw [hnil] at hxe
          simp at hxe
        have hpx : p x = true := by
          rcases xs with _ | ⟨y, ys⟩
          · exact absurd rfl hxs
          · rw [List.all_eq_true] at hall
            exact hall x (by simp)
        have htail : (xs.eraseIdx n).dropLast.all p = true :=
          ih n (all_dropLast_tail hall) (fun hlt => by
            have := hget (Nat.succ_lt_succ hlt)
            simpa using this)
        show (x :: xs.eraseIdx n).dropLast.all p = true
        rw [hxe] at htail ⊢
        rw [List.all_eq_true] at htail ⊢
        intro t ht
        rcases List.mem_cons.mp
          (show t ∈ x :: (z :: zs).dropLast from ht) with rfl | hmem
        · exact hpx
        · exact htail t hmem

lemma inv_remove {s : ServerState} (h : invS s) (i : Nat) :
    invS (api_remove s i).1 := by
  unfold api_remove
  by_cases hlt : i < s.queue.length
  · rw [dif_pos hlt]
    by_cases hrej : ((s.queue.get ⟨i, hlt⟩).suggested && s.autoplay) = true
    · rw [if_pos hrej]
      exact h
    · rw [if_neg hrej]
      show invQ s.autoplay (s.queue.eraseIdx i) = true
      by_cases ha : s.autoplay = true
      · have htarget : (s.queue.get ⟨i, hlt⟩).suggested = false := by
          by_contra hx
          have hx' : (s.queue.get ⟨i, hlt⟩).suggested = true := by
            simpa using hx
          exact hrej (by rw [hx', ha]; rfl)
        have h1 : s.queue.dropLast.all (fun t => !t.suggested) = true := by
          have h' := h
          simp only [invS, invQ, Bool.and_eq_true] at h'
          exact h'.1
        have h2 := dropLast_all_eraseIdx i s.queue h1 (fun hh => by
          have : s.queue.get ⟨i, hh⟩ = s.queue.get ⟨i, hlt⟩ := rfl
          rw [this, htarget]
          rfl)
        simp only [invQ, Bool.and_eq_true, Bool.or_eq_true]
        exact ⟨h2, Or.inl ha⟩
      · have ha' : s.autoplay = false := by simpa using ha
        have hall := all_not_sugg_of_off h ha'
        apply invQ_of_all
        rw [List.all_eq_true] at hall ⊢
        intro t ht
        exact hall t (List.eraseIdx_subset _ _ ht)
  · rw [dif_neg hlt]
    exact h

lemma step_preserves {s s' : ServerState} (h : invS s) (hs : Step s s') :
    invS s' := by
  cases hs with
  | ensure av f fe p => exact inv_ensure h av f fe p
  | prepare ts => exact inv_prepare _ ts
  | shuffleQ perm hp => exact inv_shuffle h hp
  | clearQ => exact inv_clear h
  | regen fe p => exact inv_regen h fe p
  | advance vc ok => exact inv_play h vc ok
  | toggle fe p => exact inv_toggle h fe p
  | removeAt i => exact inv_remove h i

lemma reachable_inv {s : ServerState} (h : Reachable s) : invS s := by
  unfold Reachable at h
  induction h with
  | refl => rfl
  | tail _ hstep ih => exact step_preserves ih hstep

lemma invS_to_claim {s : ServerState} (h : invS s) : claimInvariant s := by
  have h1 : s.queue.dropLast.all (fun t => !t.suggested) = true := by
    have h' := h
    simp only [invS, invQ, Bool.and_eq_true] at h'
    exact h'.1
  refine ⟨?_, ?_, ?_⟩
  · rcases onlySuggested_cases (show invQ s.autoplay s.queue = true from h)
      with h0 | ⟨t, _, h1', _⟩
    · rw [h0]
      simp
    · rw [h1']
      simp
  · intro t ht hs
    rcases List.eq_nil_or_concat s.queue with hnil | ⟨l, u, hconcat⟩
    · rw [hnil] at ht
      simp at ht
    · rw [hconcat] at ht h1 ⊢
      rw [List.concat_eq_append] at ht h1 ⊢
      rw [List.dropLast_concat] at h1
      rcases List.mem_append.mp ht with hmem | hmem
      · rw [List.all_eq_true] at h1
        have := h1 t hmem
        rw [hs] at this
        simp at this
      · have ht' : t = u := by simpa using hmem
        subst ht'
        simp
  · intro hex
    obtain ⟨t, ht, hs⟩ := hex
    by_contra hfalse
    have ha' : s.autoplay = false := by simpa using hfalse
    have hall := all_not_sugg_of_off h ha'
    rw [List.all_eq_true] at hall
    have := hall t ht
    rw [hs] at this
    simp at this

/-- C1: for every reachable `ServerState`, the queue holds at most one
track with `suggested = true`; if exactly one exists it is the last
element of the queue; and a suggested track is present only while
`autoplay = true`.  Every queue-mutating operation of the orchestrator
(`ensure_autoplay`, `prepare_song`/enqueue, `shuffle`, `clear`,
`regenerate_autoplay`, `play_next`, plus the autoplay toggle and
`api_remove`) is a `Step`, so the invariant is preserved by each of
them along every execution from the freshly created state. -/
theorem suggestion_invariant_reachable (s : ServerState)
    (h : Reachable s) : claimInvariant s :=
  invS_to_claim (reachable_inv h)

/-- Witness for C1: the state after enqueuing one track and running a
successful forced autoplay pass from a toggled-on state is reachable,
and the invariant holds there. -/
theorem suggestion_invariant_reachable_witness :
    (Reachable (toggleAutoplayS
        (prepare_song initialState [⟨"u1", "t", "a", 7, "w"⟩])
        (FetchOutcome.ok [some ⟨"r1", "rt", "ra", 9, "ru"⟩]) 0)
      ∧ claimInvariant (toggleAutoplayS
          (prepare_song initialState [⟨"u1", "t", "a", 7, "w"⟩])
          (FetchOutcome.ok [some ⟨"r1", "rt", "ra", 9, "ru"⟩]) 0)) :=
  have hr : Reachable (toggleAutoplayS
      (prepare_song initialState [⟨"u1", "t", "a", 7, "w"⟩])
      (FetchOutcome.ok [some ⟨"r1", "rt", "ra", 9, "ru"⟩]) 0) :=
    Relation.ReflTransGen.tail
      (Relation.ReflTransGen.tail Relation.ReflTransGen.refl
        (Step.prepare initialState [⟨"u1", "t", "a", 7, "w"⟩]))
      (Step.toggle _ (FetchOutcome.ok [some ⟨"r1", "rt", "ra", 9, "ru"⟩]) 0)
  ⟨hr, suggestion_invariant_reachable _ hr⟩

/-- C5: `api_remove` rejects with the invalid-operation error whenever
the target entry is suggested and autoplay is on, leaving the queue
unchanged; for any other in-range index the entry at that index is
removed. -/
theorem remove_rejects_pinned_suggestion (s : ServerState) (i : Nat)
    (h : i < s.queue.length) :
    ((s.queue.get ⟨i, h⟩).suggested = true ∧ s.autoplay = true →
        api_remove s i = (s, RemoveResult.invalidOperation))
    ∧ (¬((s.queue.get ⟨i, h⟩).suggested = true ∧ s.autoplay = true) →
        api_remove s i
          = ({ s with queue := s.queue.eraseIdx i }, RemoveResult.ok)) := by
  constructor
  · rintro ⟨h1, h2⟩
    unfold api_remove
    rw [dif_pos h, if_pos (by rw [h1, h2]; rfl)]
  · intro hn
    unfold api_remove
    rw [dif_pos h, if_neg (fun hx => hn
      ⟨((Bool.and_eq_true _ _).mp hx).1, ((Bool.and_eq_true _ _).mp hx).2⟩)]

/-- Witness for C5 on a two-element queue `[user, suggestion]` with
autoplay on: removing index 1 (the pinned suggestion) is rejected with
the queue untouched, removing index 0 deletes the user track. -/
theorem remove_rejects_pinned_suggestion_witness :
    (1 < ([⟨"u", "t", "a", 3, "w", false⟩, ⟨"sg", "st", "sa", 4, "sw", true⟩]
        : List Track).length)
    ∧ api_remove
        { queue := [⟨"u", "t", "a", 3, "w", false⟩,
                    ⟨"sg", "st", "sa", 4, "sw", true⟩],
          current_track := none, processing_next := false, history := [],
          autoplay := true, fetching_autoplay := false, stopping := false } 1
      = ({ queue := [⟨"u", "t", "a", 3, "w", false⟩,
                     ⟨"sg", "st", "sa", 4, "sw", true⟩],
           current_track := none, processing_next := false, history := [],
           autoplay := true, fetching_autoplay := false, stopping := false },
         RemoveResult.invalidOperation)
    ∧ (api_remove
        { queue := [⟨"u", "t", "a", 3, "w", false⟩,
                    ⟨"sg", "st", "sa", 4, "sw", true⟩],
          current_track := none, processing_next := false, history := [],
          autoplay := true, fetching_autoplay := false, stopping := false } 0).1.queue
      = [⟨"sg", "st", "sa", 4, "sw", true⟩] :=
  ⟨by decide,
   (remove_rejects_pinned_suggestion _ 1 (by decide)).1 (by decide),
   by rw [(remove_rejects_pinned_suggestion _ 0 (by decide)).2 (by decide)]; rfl⟩

/-- C7: `clear` removes exactly the non-suggested entries: the queue
becomes the suggested-only sublist when autoplay is on (the lone
suggestion, if present, surviving as sole element) and becomes empty
when autoplay is off, while every other field of the state is
unchanged. -/
theorem clear_keeps_only_suggestion (s : ServerState) :
    (s.autoplay = false → (clearQueue s).queue = [])
    ∧ (s.autoplay = true → (clearQueue s).queue = onlySuggested s.queue)
    ∧ (invS s → (clearQueue s).queue = s.queue.filter (fun t => t.suggested))
    ∧ (invS s → s.autoplay = true →
        ∀ t ∈ s.queue, t.suggested = true → (clearQueue s).queue = [t])
    ∧ (clearQueue s).current_track = s.current_track
    ∧ (clearQueue s).history = s.history
    ∧ (clearQueue s).autoplay = s.autoplay
    ∧ (clearQueue s).processing_next = s.processing_next
    ∧ (clearQueue s).fetching_autoplay = s.fetching_autoplay
    ∧ (clearQueue s).stopping = s.stopping := by
  refine ⟨?_, ?_, ?_, ?_, ?_, ?_, ?_, ?_, ?_, ?_⟩
  · intro ha
    unfold clearQueue
    rw [if_neg (by rw [ha]; exact Bool.false_ne_true)]
  · intro ha
    unfold clearQueue
    rw [if_pos ha]
  · intro hinv
    unfold clearQueue
    by_cases ha : s.autoplay = true
    · rw [if_pos ha]
      rfl
    · have ha' : s.autoplay = false := by simpa using ha
      rw [if_neg (by rw [ha']; exact Bool.false_ne_true)]
      have hall := all_not_sugg_of_off hinv ha'
      have : s.queue.filter (fun t => t.suggested) = [] := by
        rw [List.filter_eq_nil_iff]
        rw [List.all_eq_true] at hall
        intro u hu
        simpa using hall u hu
      rw [this]
  · intro hinv ha t ht hs
    unfold clearQueue
    rw [if_pos ha]
    rcases onlySuggested_cases (show invQ s.autoplay s.queue = true from hinv)
      with h0 | ⟨u, hu, h1', _⟩
    · have : t ∈ onlySuggested s.queue := List.mem_filter.mpr ⟨ht, hs⟩
      rw [h0] at this
      simp at this
    · have htu : t = u := by
        have : t ∈ onlySuggested s.queue := List.mem_filter.mpr ⟨ht, hs⟩
        rw [h1'] at this
        simpa using this
      rw [h1', htu]
  all_goals
    unfold clearQueue
    split <;> rfl

/-- Witness for C7 at `queue = [user, suggestion]`, autoplay on, and its
autoplay-off counterpart with only user tracks. -/
theorem clear_keeps_only_suggestion_witness :
    (clearQueue
        { queue := [⟨"u", "t", "a", 3, "w", false⟩,
                    ⟨"sg", "st", "sa", 4, "sw", true⟩],
          current_track := none, processing_next := false, history := [],
          autoplay := true, fetching_autoplay := false,
          stopping := false }).queue
      = [⟨"sg", "st", "sa", 4, "sw", true⟩]
    ∧ (clearQueue
        { queue := [⟨"u", "t", "a", 3, "w", false⟩],
          current_track := none, processing_next := false, history := [],
          autoplay := false, fetching_autoplay := false,
          stopping := false }).queue = [] :=
  ⟨(clear_keeps_only_suggestion _).2.2.2.1 (by rfl) (by decide)
      ⟨"sg", "st", "sa", 4, "sw", true⟩ (by decide) (by decide),
   (clear_keeps_only_suggestion _).1 (by decide)⟩

/-- C8: an advance request received while `processing_next = true` or
while `stopping = true` is ignored: `play_next` returns with the state
identical (no pop, no change to `current_track`, `history` or any other
field) and reports no playback effect. -/
theorem advance_ignored_when_guarded (s : ServerState) (vc ok : Bool)
    (h : s.stopping = true ∨ s.processing_next = true) :
    play_next s vc ok = (s, PlayEffect.ignored) := by
  unfold play_next
  rcases h with h | h
  · rw [if_pos (by rw [h]; rfl)]
  · by_cases hg : (s.stopping || !vc) = true
    · rw [if_pos hg]
    · rw [if_neg hg, if_pos h]

/-- Witness for C8: with a non-empty queue and a connected voice client
but `processing_next = true`, the advance leaves everything unchanged. -/
theorem advance_ignored_when_guarded_witness :
    play_next
      { queue := [⟨"u", "t", "a", 3, "w", false⟩],
        current_track := some ⟨"c", "ct", "ca", 5, "cw", false⟩,
        processing_next := true, history := [], autoplay := false,
        fetching_autoplay := false, stopping := false } true true
    = ({ queue := [⟨"u", "t", "a", 3, "w", false⟩],
         current_track := some ⟨"c", "ct", "ca", 5, "cw", false⟩,
         processing_next := true, history := [], autoplay := false,
         fetching_autoplay := false, stopping := false },
       PlayEffect.ignored) :=
  advance_ignored_when_guarded _ true true (Or.inr rfl)

/-- C10: a call of `ensure_autoplay` entered with the single-flight
guard free leaves `fetching_autoplay = false` on every exit — in
particular when the recommendation fetch raises, because the guard is
restored in the `finally` block — so a failed fetch can never leave the
guard stuck. -/
theorem ensure_autoplay_clears_guard (s : ServerState) (av : List String)
    (f : Bool) (fe : FetchOutcome) (p : Nat)
    (h : s.fetching_autoplay = false) :
    ((ensure_autoplay s av f fe p).1).fetching_autoplay = false := by
  unfold ensure_autoplay
  by_cases ha : (!s.autoplay) = true
  · rw [if_pos ha]
    exact h
  · rw [if_neg ha]
    by_cases hfa : (s.fetching_autoplay && !f) = true
    · rw [if_pos hfa]
      exact h
    · rw [if_neg hfa]
      by_cases hcond : (!(onlySuggested s.queue).isEmpty
          && !(f || !(lastIsSuggested s.queue)
                || decide (1 < (onlySuggested s.queue).length))) = true
      · rw [if_pos hcond]
        exact h
      · rw [if_neg hcond]
        exact ensureFetch_flag _ fe p _ h

/-- Witness for C10 on a raising fetch: the fetch phase runs (second
component `true`) and the guard is back to `false` afterwards. -/
theorem ensure_autoplay_clears_guard_witness :
    ((ensure_autoplay
        { queue := [], current_track := some ⟨"sd", "t", "a", 5, "w", false⟩,
          processing_next := false, history := [], autoplay := true,
          fetching_autoplay := false, stopping := false }
        [] true FetchOutcome.raises 0).1).fetching_autoplay = false
    ∧ (ensure_autoplay
        { queue := [], current_track := some ⟨"sd", "t", "a", 5, "w", false⟩,
          processing_next := false, history := [], autoplay := true,
          fetching_autoplay := false, stopping := false }
        [] true FetchOutcome.raises 0).2 = true :=
  ⟨ensure_autoplay_clears_guard _ [] true FetchOutcome.raises 0 rfl,
   by decide⟩

/-- C2 counterexample: a forced `ensure_autoplay` call made while a
fetch for the same guild is outstanding (`fetching_autoplay = true`)
does not set any dirty flag and return — `ServerState` has no such
field — but passes the guard (`if state.fetching_autoplay and not
force`) and runs a second fetch: the fetch-ran indicator is `true` and
a fresh suggestion is appended. -/
theorem forced_call_starts_second_fetch :
    (ensure_autoplay
        { queue := [], current_track := some ⟨"sd", "t", "a", 5, "w", false⟩,
          processing_next := false, history := [], autoplay := true,
          fetching_autoplay := true, stopping := false }
        [] true (FetchOutcome.ok [some ⟨"n1", "nt", "na", 7, "nu"⟩]) 0).2
      = true
    ∧ (ensure_autoplay
        { queue := [], current_track := some ⟨"sd", "t", "a", 5, "w", false⟩,
          processing_next := false, history := [], autoplay := true,
          fetching_autoplay := true, stopping := false }
        [] true (FetchOutcome.ok [some ⟨"n1", "nt", "na", 7, "nu"⟩]) 0).1.queue
      = [⟨"n1", "nt", "na", 7, "nu", true⟩] := by
  decide

/-- C2 (amended): the single-flight guard of `ensure_autoplay` in
`src/src/bot.py` covers non-forced invocations only — a non-forced call
arriving while a fetch is outstanding starts no second fetch and (with
autoplay on) changes nothing; the bot has no dirty flag, so forced
invocations bypass the guard (see `forced_call_starts_second_fetch`);
the dirty-coalescing follow-up described by the claim exists only in
the standalone race simulation `src/test_race.py`. -/
theorem single_flight_nonforced (s : ServerState) (av : List String)
    (fe : FetchOutcome) (p : Nat) (h : s.fetching_autoplay = true) :
    (ensure_autoplay s av false fe p).2 = false
    ∧ (s.autoplay = true → ensure_autoplay s av false fe p = (s, false)) := by
  constructor
  · unfold ensure_autoplay
    by_cases ha : (!s.autoplay) = true
    · rw [if_pos ha]
    · rw [if_neg ha, if_pos (by rw [h]; rfl)]
  · intro ha
    unfold ensure_autoplay
    rw [if_neg (by rw [ha]; simp), if_pos (by rw [h]; rfl)]

/-- Witness for the amended C2: a non-forced call during an outstanding
fetch returns the state unchanged and starts no fetch. -/
theorem single_flight_nonforced_witness :
    (ensure_autoplay
        { queue := [⟨"u", "t", "a", 3, "w", false⟩],
          current_track := none, processing_next := false, history := [],
          autoplay := true, fetching_autoplay := true, stopping := false }
        [] false (FetchOutcome.ok [some ⟨"n1", "nt", "na", 7, "nu"⟩]) 0).2
      = false
    ∧ ensure_autoplay
        { queue := [⟨"u", "t", "a", 3, "w", false⟩],
          current_track := none, processing_next := false, history := [],
          autoplay := true, fetching_autoplay := true, stopping := false }
        [] false (FetchOutcome.ok [some ⟨"n1", "nt", "na", 7, "nu"⟩]) 0
      = ({ queue := [⟨"u", "t", "a", 3, "w", false⟩],
           current_track := none, processing_next := false, history := [],
           autoplay := true, fetching_autoplay := true, stopping := false },
         false) :=
  ⟨(single_flight_nonforced _ [] (FetchOutcome.ok [some ⟨"n1", "nt", "na", 7, "nu"⟩]) 0 rfl).1,
   (single_flight_nonforced _ [] (FetchOutcome.ok [some ⟨"n1", "nt", "na", 7, "nu"⟩]) 0 rfl).2 rfl⟩

/-- C4: stopping twice never disconnects the voice transport twice and
never fails: the first `stop_logic` removes the registry entry, the
second observes the absent entry and is the identity; across both calls
at most one disconnect is issued; and an advance request arriving after
the stop finds no connected voice client, so it pops nothing, starts no
playback, and leaves the freshly re-created state at its default. -/
theorem stop_logic_idempotent (w : GuildWorld) (ok : Bool)
    (h : w.present = true) :
    (stop_logic w).present = false
    ∧ stop_logic (stop_logic w) = stop_logic w
    ∧ (stop_logic (stop_logic w)).disconnects ≤ w.disconnects + 1
    ∧ (play_next_world (stop_logic w) ok).2 = PlayEffect.ignored
    ∧ (play_next_world (stop_logic w) ok).1.st = initialState := by
  have h1 : stop_logic w
      = { present := false, st := { w.st with stopping := true },
          vcConnected := false,
          disconnects := w.disconnects + (if w.vcConnected then 1 else 0) } := by
    unfold stop_logic
    rw [h]
    rfl
  have h2 : stop_logic (stop_logic w) = stop_logic w := by
    rw [h1]
    rfl
  refine ⟨by rw [h1], h2, ?_, ?_, ?_⟩
  · rw [h2, h1]
    by_cases hvc : w.vcConnected = true
    · rw [hvc]
      simp
    · have : w.vcConnected = false := by simpa using hvc
      rw [this]
      simp
  · rw [h1]
    rfl
  · rw [h1]
    rfl

/-- Witness for C4 at a concrete connected session with one queued
track. -/
theorem stop_logic_idempotent_witness :
    (stop_logic
        { present := true,
          st := { queue := [⟨"u", "t", "a", 3, "w", false⟩],
                  current_track := none, processing_next := false,
                  history := [], autoplay := false,
                  fetching_autoplay := false, stopping := false },
          vcConnected := true, disconnects := 0 }).present = false
    ∧ stop_logic (stop_logic
        { present := true,
          st := { queue := [⟨"u", "t", "a", 3, "w", false⟩],
                  current_track := none, processing_next := false,
                  history := [], autoplay := false,
                  fetching_autoplay := false, stopping := false },
          vcConnected := true, disconnects := 0 })
      = stop_logic
        { present := true,
          st := { queue := [⟨"u", "t", "a", 3, "w", false⟩],
                  current_track := none, processing_next := false,
                  history := [], autoplay := false,
                  fetching_autoplay := false, stopping := false },
          vcConnected := true, disconnects := 0 }
    ∧ (stop_logic (stop_logic
        { present := true,
          st := { queue := [⟨"u", "t", "a", 3, "w", false⟩],
                  current_track := none, processing_next := false,
                  history := [], autoplay := false,
                  fetching_autoplay := false, stopping := false },
          vcConnected := true, disconnects := 0 })).disconnects ≤ 1
    ∧ (play_next_world (stop_logic
        { present := true,
          st := { queue := [⟨"u", "t", "a", 3, "w", false⟩],
                  current_track := none, processing_next := false,
                  history := [], autoplay := false,
                  fetching_autoplay := false, stopping := false },
          vcConnected := true, disconnects := 0 }) true).2
      = PlayEffect.ignored :=
  have hth := stop_logic_idempotent
    { present := true,
      st := { queue := [⟨"u", "t", "a", 3, "w", false⟩],
              current_track := none, processing_next := false,
              history := [], autoplay := false,
              fetching_autoplay := false, stopping := false },
      vcConnected := true, disconnects := 0 } true rfl
  ⟨hth.1, hth.2.1, hth.2.2.1, hth.2.2.2.1⟩

/-- C6: shuffling produces the supplied permutation of the non-suggested
tracks followed by the suggested entries unchanged; the whole queue
keeps its multiset of entries, and under the queue invariant the
suggestion (if any) is still the last element afterwards. -/
theorem shuffle_keeps_suggestion_last (s : ServerState)
    (perm : List Track) (hp : perm.Perm (stripSuggested s.queue)) :
    (shuffleWith s perm).queue = perm ++ onlySuggested s.queue
    ∧ ((shuffleWith s perm).queue).Perm s.queue
    ∧ (invS s → ∀ t ∈ s.queue, t.suggested = true →
        ((shuffleWith s perm).queue).getLast? = some t) := by
  refine ⟨rfl, ?_, ?_⟩
  · have h1 : (stripSuggested s.queue ++ onlySuggested s.queue).Perm
        s.queue := by
      have hperm := List.filter_append_perm
        (fun t : Track => !t.suggested) s.queue
      have heq : s.queue.filter (fun x => !(!x.suggested))
          = s.queue.filter (fun t => t.suggested) :=
        List.filter_congr (fun x _ => by simp)
      rw [heq] at hperm
      exact hperm
    exact (hp.append_right (onlySuggested s.queue)).trans h1
  · intro hinv t ht hs
    rcases onlySuggested_cases (show invQ s.autoplay s.queue = true from hinv)
      with h0 | ⟨u, hu, h1', _⟩
    · have hmem : t ∈ onlySuggested s.queue := List.mem_filter.mpr ⟨ht, hs⟩
      rw [h0] at hmem
      simp at hmem
    · have htu : t = u := by
        have hmem : t ∈ onlySuggested s.queue := List.mem_filter.mpr ⟨ht, hs⟩
        rw [h1'] at hmem
        simpa using hmem
      subst htu
      show (perm ++ onlySuggested s.queue).getLast? = some t
      rw [h1']
      rw [List.getLast?_append]
      rfl

/-- Witness for C6: `queue = [a, b, S]` with `S` suggested, shuffled to
`[b, a]`; the result is `[b, a, S]`, a permutation of the original with
`S` still last. -/
theorem shuffle_keeps_suggestion_last_witness :
    (([⟨"b", "tb", "ab", 2, "wb", false⟩, ⟨"a", "ta", "aa", 1, "wa", false⟩]
        : List Track).Perm
      (stripSuggested [⟨"a", "ta", "aa", 1, "wa", false⟩,
        ⟨"b", "tb", "ab", 2, "wb", false⟩, ⟨"sg", "ts", "as", 3, "ws", true⟩]))
    ∧ (shuffleWith
        { queue := [⟨"a", "ta", "aa", 1, "wa", false⟩,
                    ⟨"b", "tb", "ab", 2, "wb", false⟩,
                    ⟨"sg", "ts", "as", 3, "ws", true⟩],
          current_track := none, processing_next := false, history := [],
          autoplay := true, fetching_autoplay := false, stopping := false }
        [⟨"b", "tb", "ab", 2, "wb", false⟩, ⟨"a", "ta", "aa", 1, "wa", false⟩]).queue
      = [⟨"b", "tb", "ab", 2, "wb", false⟩, ⟨"a", "ta", "aa", 1, "wa", false⟩,
         ⟨"sg", "ts", "as", 3, "ws", true⟩]
    ∧ ((shuffleWith
        { queue := [⟨"a", "ta", "aa", 1, "wa", false⟩,
                    ⟨"b", "tb", "ab", 2, "wb", false⟩,
                    ⟨"sg", "ts", "as", 3, "ws", true⟩],
          current_track := none, processing_next := false, history := [],
          autoplay := true, fetching_autoplay := false, stopping := false }
        [⟨"b", "tb", "ab", 2, "wb", false⟩,
         ⟨"a", "ta", "aa", 1, "wa", false⟩]).queue).getLast?
      = some ⟨"sg", "ts", "as", 3, "ws", true⟩ :=
  ⟨by decide, by decide,
   (shuffle_keeps_suggestion_last _ _ (by decide)).2.2 (by rfl)
     ⟨"sg", "ts", "as", 3, "ws", true⟩ (by decide) (by decide)⟩

lemma collect_eq_take (sid : String) (av rc : List String)
    (q : List Track) :
    ∀ (entries : List (Option Entry)) (acc : List Entry),
      acc.length < 5 →
      collectCandidates sid av rc q entries acc
        = acc ++ ((entries.filterMap id).filter
            (candidateOk sid av rc q)).take (5 - acc.length) := by
  intro entries
  induction entries with
  | nil =>
    intro acc hlen
    simp [collectCandidates]
  | cons e rest ih =>
    intro acc hlen
    cases e with
    | none =>
      show collectCandidates sid av rc q rest acc = _
      rw [ih acc hlen]
      simp
    | some e =>
      by_cases hok : candidateOk sid av rc q e = true
      · show (if candidateOk sid av rc q e = true then
            if 5 ≤ (acc ++ [e]).length then acc ++ [e]
            else collectCandidates sid av rc q rest (acc ++ [e])
          else collectCandidates sid av rc q rest acc) = _
        rw [if_pos hok]
        have hfil : (List.filterMap id (some e :: rest)).filter
            (candidateOk sid av rc q)
            = e :: (rest.filterMap id).filter (candidateOk sid av rc q) := by
          simp [List.filterMap_cons, hok]
        rw [hfil]
        by_cases hfull : 5 ≤ (acc ++ [e]).length
        · rw [if_pos hfull]
          have hlen4 : acc.length = 4 := by
            simp only [List.length_append, List.length_singleton] at hfull
            omega
          have h51 : 5 - acc.length = 1 := by omega
          rw [h51]
          simp
        · rw [if_neg hfull]
          have hlen' : (acc ++ [e]).length < 5 := by omega
          rw [ih (acc ++ [e]) hlen']
          have harith : 5 - acc.length = (5 - (acc ++ [e]).length) + 1 := by
            simp only [List.length_append, List.length_singleton]
            omega
          rw [harith, List.take_succ_cons]
          simp
      · show (if candidateOk sid av rc q e = true then
            if 5 ≤ (acc ++ [e]).length then acc ++ [e]
            else collectCandidates sid av rc q rest (acc ++ [e])
          else collectCandidates sid av rc q rest acc) = _
        rw [if_neg hok]
        rw [ih acc hlen]
        have hfil : (List.filterMap id (some e :: rest)).filter
            (candidateOk sid av rc q)
            = (rest.filterMap id).filter (candidateOk sid av rc q) := by
          simp [List.filterMap_cons, hok]
        rw [hfil]

/-- C9: when the autoplay fetch runs with feed result `entries`, the
candidate list built by `ensure_autoplay` is exactly the first five
feed entries (`None`s skipped) that survive the four exclusions —
the seed's own id, ids in `avoid_ids`, ids among the ids of the last
20 history entries, and ids already present in the queue — and the
appended suggestion is `candidates[pick % len(candidates)]`, converted
with `suggested = true` onto the stripped queue (so every candidate is
the possible uniform-random choice for some `pick`); with no candidates
the queue is left at its stripped form. -/
theorem autoplay_candidate_selection (s : ServerState) (av : List String)
    (p : Nat) (q : List Track) (entries : List (Option Entry))
    (seed : Track)
    (hseed : seedOf q s.current_track s.history = some seed) :
    collectCandidates seed.id av (recentIds s.history) q entries []
      = ((entries.filterMap id).filter (fun e =>
            decide (e.id ≠ seed.id) && !(av.contains e.id)
              && !((((s.history.drop (s.history.length - 20)).map
                    (fun t => t.id))).contains e.id)
              && !(q.any (fun t => t.id == e.id)))).take 5
    ∧ (∀ c cs,
        collectCandidates seed.id av (recentIds s.history) q entries []
            = c :: cs →
        (ensureFetch s av (FetchOutcome.ok entries) p q).1.queue
          = stripSuggested q
              ++ [entryToSuggested ((c :: cs).getD (p % (c :: cs).length) c)])
    ∧ (collectCandidates seed.id av (recentIds s.history) q entries [] = []
        → (ensureFetch s av (FetchOutcome.ok entries) p q).1.queue = q) := by
  refine ⟨?_, ?_, ?_⟩
  · rw [collect_eq_take seed.id av (recentIds s.history) q entries []
      (by simp)]
    have hcongr : ∀ e : Entry,
        candidateOk seed.id av (recentIds s.history) q e
          = (decide (e.id ≠ seed.id) && !(av.contains e.id)
              && !((((s.history.drop (s.history.length - 20)).map
                    (fun t => t.id))).contains e.id)
              && !(q.any (fun t => t.id == e.id))) := by
      intro e
      unfold candidateOk recentIds
      apply Bool.eq_iff_iff.mpr
      simp
    simp only [List.nil_append, Nat.sub_zero]
    congr 1
    exact List.filter_congr (fun e _ => hcongr e)
  · intro c cs hc
    unfold ensureFetch
    rw [hseed]
    dsimp only
    rw [hc]
  · intro hc
    unfold ensureFetch
    rw [hseed]
    dsimp only
    rw [hc]

/-- Concrete feed for the C9 witness: a seed duplicate, a `None` entry,
an `avoid_ids` hit, a history hit, then six fresh candidates (one more
than the cap). -/
def entriesW : List (Option Entry) :=
  [some ⟨"u1", "x", "x", 1, "xu"⟩,
   none,
   some ⟨"av1", "x", "x", 1, "xa"⟩,
   some ⟨"h1", "x", "x", 1, "xh"⟩,
   some ⟨"c1", "t1", "a1", 3, "u1c"⟩,
   some ⟨"c2", "t2", "a2", 3, "u2c"⟩,
   some ⟨"c3", "t3", "a3", 3, "u3c"⟩,
   some ⟨"c4", "t4", "a4", 3, "u4c"⟩,
   some ⟨"c5", "t5", "a5", 3, "u5c"⟩,
   some ⟨"c6", "t6", "a6", 3, "u6c"⟩]

/-- State for the C9 witness: one user track queued (the seed), one
history entry. -/
def stateW : ServerState :=
  { queue := [⟨"u1", "tu", "au", 5, "wu", false⟩],
    current_track := none, processing_next := false,
    history := [⟨"h1", "th", "ah", 6, "wh", false⟩],
    autoplay := true, fetching_autoplay := false, stopping := false }

/-- Witness for C9: the candidate list is exactly `c1..c5` (the seed
duplicate, avoid hit, history hit and `None` are excluded, `c6` is
beyond the cap of five), and with `pick = 7` the appended suggestion is
`c3` (`7 % 5 = 2`). -/
theorem autoplay_candidate_selection_witness :
    collectCandidates "u1" ["av1"] (recentIds stateW.history)
        stateW.queue entriesW []
      = [⟨"c1", "t1", "a1", 3, "u1c"⟩, ⟨"c2", "t2", "a2", 3, "u2c"⟩,
         ⟨"c3", "t3", "a3", 3, "u3c"⟩, ⟨"c4", "t4", "a4", 3, "u4c"⟩,
         ⟨"c5", "t5", "a5", 3, "u5c"⟩]
    ∧ (ensureFetch stateW ["av1"] (FetchOutcome.ok entriesW) 7
        stateW.queue).1.queue
      = [⟨"u1", "tu", "au", 5, "wu", false⟩,
         ⟨"c3", "t3", "a3", 3, "u3c", true⟩] :=
  ⟨by decide,
   by
    rw [(autoplay_candidate_selection stateW ["av1"] 7 stateW.queue entriesW
        ⟨"u1", "tu", "au", 5, "wu", false⟩ (by decide)).2.1
      ⟨"c1", "t1", "a1", 3, "u1c"⟩
      [⟨"c2", "t2", "a2", 3, "u2c"⟩, ⟨"c3", "t3", "a3", 3, "u3c"⟩,
       ⟨"c4", "t4", "a4", 3, "u4c"⟩, ⟨"c5", "t5", "a5", 3, "u5c"⟩]
      (by decide)]
    rfl⟩

lemma totalSize_nil : totalSize [] = 0 := rfl

lemma totalSize_cons (f : CacheFile) (l : List CacheFile) :
    totalSize (f :: l) = (f.size : Int) + totalSize l := by
  simp [totalSize]

lemma sweepLoop_spec (bound : Int) :
    ∀ (l : List CacheFile) (total : Int) (acc : List String),
      ∃ k, k ≤ l.length
        ∧ sweepLoop bound l total acc
            = (total - totalSize (l.take k),
               acc ++ (l.take k).map (fun f => f.id))
        ∧ (k = l.length ∨ total - totalSize (l.take k) ≤ bound)
        ∧ (∀ j, 1 ≤ j → j < k → bound < total - totalSize (l.take j)) := by
  intro l
  induction l with
  | nil =>
    intro total acc
    refine ⟨0, Nat.le_refl 0, ?_, Or.inl rfl, ?_⟩
    · simp [sweepLoop, totalSize]
    · intro j h1 h2
      omega
  | cons f rest ih =>
    intro total acc
    by_cases hbr : total - (f.size : Int) ≤ bound
    · refine ⟨1, by simp, ?_, Or.inr ?_, ?_⟩
      · show (if total - (f.size : Int) ≤ bound
            then (total - (f.size : Int), acc ++ [f.id])
            else sweepLoop bound rest (total - (f.size : Int))
              (acc ++ [f.id])) = _
        rw [if_pos hbr]
        simp [totalSize_cons, totalSize_nil]
      · simpa [totalSize_cons, totalSize_nil] using hbr
      · intro j h1 h2
        omega
    · obtain ⟨k', hk'le, hk'eq, hk'disj, hk'min⟩ :=
        ih (total - (f.size : Int)) (acc ++ [f.id])
      refine ⟨k' + 1, by simpa using Nat.succ_le_succ hk'le, ?_, ?_, ?_⟩
      · show (if total - (f.size : Int) ≤ bound
            then (total - (f.size : Int), acc ++ [f.id])
            else sweepLoop bound rest (total - (f.size : Int))
              (acc ++ [f.id])) = _
        rw [if_neg hbr, hk'eq]
        rw [List.take_succ_cons, totalSize_cons, List.map_cons]
        rw [Prod.mk.injEq]
        exact ⟨by ring, by simp⟩
      · rcases hk'disj with h | h
        · exact Or.inl (by simpa using congrArg Nat.succ h)
        · refine Or.inr ?_
          rw [List.take_succ_cons, totalSize_cons]
          omega
      · intro j h1 h2
        cases j with
        | zero => omega
        | succ n =>
          rw [List.take_succ_cons, totalSize_cons]
          cases n with
          | zero =>
            simp only [List.take_zero, totalSize_nil]
            omega
          | succ m =>
            have := hk'min (m + 1) (by omega) (by omega)
            omega

lemma totalSize_append (a b : List CacheFile) :
    totalSize (a ++ b) = totalSize a + totalSize b := by
  simp [totalSize]

lemma totalSize_perm {a b : List CacheFile} (h : a.Perm b) :
    totalSize a = totalSize b := by
  unfold totalSize
  exact (h.map (fun f => (f.size : Int))).sum_eq

lemma totalSize_take_drop (l : List CacheFile) (k : Nat) :
    totalSize l = totalSize (l.take k) + totalSize (l.drop k) := by
  conv_lhs => rw [← List.take_append_drop k l]
  exact totalSize_append _ _

lemma filter_take_ids_drop :
    ∀ (l : List CacheFile), (l.map (fun f => f.id)).Nodup →
      ∀ k, l.filter (fun f =>
          !(((l.take k).map (fun g => g.id)).contains f.id)) = l.drop k := by
  intro l
  induction l with
  | nil =>
    intro _ k
    simp
  | cons f rest ih =>
    intro hnd k
    have hnd' : (f.id :: rest.map (fun g => g.id)).Nodup := by
      simpa using hnd
    cases k with
    | zero =>
      simp only [List.take_zero, List.map_nil, List.drop_zero]
      apply List.filter_eq_self.mpr
      intro a _
      simp
    | succ n =>
      rw [List.take_succ_cons, List.map_cons, List.drop_succ_cons]
      rw [List.filter_cons]
      have hpredf :
          (!((f.id :: (rest.take n).map (fun g => g.id)).contains f.id))
            = false := by
        simp
      rw [hpredf]
      simp only [Bool.false_eq_true, if_false]
      have hnotid : ∀ x ∈ rest, (x.id == f.id) = false := by
        intro x hx
        have hne : x.id ≠ f.id := by
          intro heq
          exact (List.nodup_cons.mp hnd').1
            (List.mem_map.mpr ⟨x, hx, heq⟩)
        simp [hne]
      have hcongr : rest.filter (fun x =>
            !((f.id :: (rest.take n).map (fun g => g.id)).contains x.id))
          = rest.filter (fun x =>
            !(((rest.take n).map (fun g => g.id)).contains x.id)) := by
        apply List.filter_congr
        intro x hx
        rw [List.contains_cons, hnotid x hx]
        simp
      rw [hcongr]
      exact ih (List.nodup_cons.mp hnd').2 n

/-- C3 (amended): on a cache directory consisting of `.webm` audio files
with distinct ids whose total size exceeds the ceiling, the eviction
sweep deletes a prefix of the files sorted oldest-first by modification
time — stopping as soon as the running total drops to
`ceiling − 100MB` — and terminates with the total size of the remaining
directory at most `ceiling − 100MB` (the ceiling `maxBytes g` exceeds
the margin whenever `1 ≤ g`). -/
theorem cache_eviction_bounded (g : Nat) (dir : List CacheFile)
    (cmap : List String)
    (hwebm : ∀ f ∈ dir, f.ext = "webm")
    (hnd : (dir.map (fun f => f.id)).Nodup)
    (hg : 1 ≤ g)
    (hover : maxBytes g < totalSize dir) :
    ∃ k, k ≤ (sortedWebm dir).length
      ∧ (enforceCacheLimit g dir cmap).1
          = dir.filter (fun f =>
              !((((sortedWebm dir).take k).map (fun x => x.id)).contains
                  f.id))
      ∧ totalSize (enforceCacheLimit g dir cmap).1
          ≤ maxBytes g - marginBytes
      ∧ (∀ j, 1 ≤ j → j < k →
          maxBytes g - marginBytes
            < totalSize dir - totalSize ((sortedWebm dir).take j)) := by
  have hfil : dir.filter (fun f => f.ext == "webm") = dir := by
    apply List.filter_eq_self.mpr
    intro f hf
    rw [hwebm f hf]
    rfl
  have hperm : (sortedWebm dir).Perm dir := by
    unfold sortedWebm
    rw [hfil]
    exact List.perm_insertionSort _ dir
  have hndS : ((sortedWebm dir).map (fun f => f.id)).Nodup :=
    ((hperm.map (fun f => f.id)).nodup_iff).mpr hnd
  obtain ⟨k, hkle, hkeq, hkdisj, hkmin⟩ :=
    sweepLoop_spec (maxBytes g - marginBytes) (sortedWebm dir)
      (totalSize dir) []
  have henf : (enforceCacheLimit g dir cmap).1
      = dir.filter (fun f =>
          !((((sortedWebm dir).take k).map (fun x => x.id)).contains
              f.id)) := by
    have hbody : (enforceCacheLimit g dir cmap).1
        = dir.filter (fun f =>
            !(((sweepLoop (maxBytes g - marginBytes) (sortedWebm dir)
                  (totalSize dir) []).2).contains f.id
              && (f.ext == "webm" || f.ext == "jpg"))) := by
      simp only [enforceCacheLimit, sortedWebm]
      rw [if_pos hover]
    rw [hbody, hkeq]
    apply List.filter_congr
    intro f hf
    rw [hwebm f hf]
    simp
  refine ⟨k, hkle, henf, ?_, ?_⟩
  · have hsize : totalSize (enforceCacheLimit g dir cmap).1
        = totalSize dir - totalSize ((sortedWebm dir).take k) := by
      rw [henf]
      have hpf := List.Perm.filter
        (fun f : CacheFile =>
          !((((sortedWebm dir).take k).map (fun x => x.id)).contains f.id))
        hperm
      rw [← totalSize_perm hpf,
        filter_take_ids_drop (sortedWebm dir) hndS k]
      have := totalSize_take_drop (sortedWebm dir) k
      have hts : totalSize (sortedWebm dir) = totalSize dir :=
        totalSize_perm hperm
      omega
    rw [hsize]
    rcases hkdisj with hk | hle
    · have hdropnil : totalSize dir - totalSize ((sortedWebm dir).take k)
          = 0 := by
        rw [hk, List.take_length]
        have hts : totalSize (sortedWebm dir) = totalSize dir :=
          totalSize_perm hperm
        omega
      rw [hdropnil]
      have h1g : (1 : Int) ≤ (g : Int) := by exact_mod_cast hg
      have hmb : (1024 * 1024 * 1024 : Int) ≤ maxBytes g := by
        unfold maxBytes
        nlinarith
      unfold marginBytes at *
      linarith
    · exact hle
  · exact hkmin

/-- C3 counterexample for the claim as stated: a directory holding a
small `.webm` (evictable) and a large non-`.webm` file has total size
above the ceiling, the ceiling exceeds the margin (`g = 1`), and an
evictable file exists, yet after the sweep the directory total is still
far above `ceiling − margin`, because only `.webm` files are ever
deleted while the running total counts every file. -/
theorem cache_eviction_counterexample :
    maxBytes 1 < totalSize
      [⟨"a", "webm", 1048576, 0⟩, ⟨"b", "mp3", 2147483648, 1⟩]
    ∧ marginBytes < maxBytes 1
    ∧ (([⟨"a", "webm", 1048576, 0⟩, ⟨"b", "mp3", 2147483648, 1⟩]
        : List CacheFile).filter (fun f => f.ext == "webm")) ≠ []
    ∧ maxBytes 1 - marginBytes
        < totalSize (enforceCacheLimit 1
            [⟨"a", "webm", 1048576, 0⟩, ⟨"b", "mp3", 2147483648, 1⟩] []).1 := by
  refine ⟨?_, ?_, ?_, ?_⟩ <;> decide

/-- Scenario D directory: five 300MB (`300 * 1024 * 1024` byte) `.webm`
files ordered oldest→newest by modification time. -/
def dirD : List CacheFile :=
  [⟨"f1", "webm", 314572800, 1⟩, ⟨"f2", "webm", 314572800, 2⟩,
   ⟨"f3", "webm", 314572800, 3⟩, ⟨"f4", "webm", 314572800, 4⟩,
   ⟨"f5", "webm", 314572800, 5⟩]

/-- Witness for the amended C3 at Scenario D (ceiling 1GB, margin 100MB,
five 300MB files, 1.5GB total): the hypotheses hold, the theorem
applies, and the sweep deletes exactly `f1` and `f2`, leaving
`[f3, f4, f5]` (900MB ≤ 924MB) untouched. -/
theorem cache_eviction_bounded_witness :
    (∀ f ∈ dirD, f.ext = "webm")
    ∧ (dirD.map (fun f => f.id)).Nodup
    ∧ maxBytes 1 < totalSize dirD
    ∧ (∃ k, k ≤ (sortedWebm dirD).length
        ∧ (enforceCacheLimit 1 dirD []).1
            = dirD.filter (fun f =>
                !((((sortedWebm dirD).take k).map (fun x => x.id)).contains
                    f.id))
        ∧ totalSize (enforceCacheLimit 1 dirD []).1
            ≤ maxBytes 1 - marginBytes
        ∧ (∀ j, 1 ≤ j → j < k →
            maxBytes 1 - marginBytes
              < totalSize dirD - totalSize ((sortedWebm dirD).take j)))
    ∧ (enforceCacheLimit 1 dirD []).1
        = [⟨"f3", "webm", 314572800, 3⟩, ⟨"f4", "webm", 314572800, 4⟩,
           ⟨"f5", "webm", 314572800, 5⟩] :=
  ⟨by decide, by decide, by decide,
   cache_eviction_bounded 1 dirD [] (by decide) (by decide)
     (Nat.le_refl 1) (by decide),
   by decide⟩
